import Mathlib

/-!
Verification of the `useForm` form-state engine (validation, debounced
per-field validation, submission, reset) against its specification.

The engine is embedded shallowly:

* JavaScript values that flow through the validator are modelled by
  `JSValue` (null, undefined, booleans, integer numbers, strings), with
  JavaScript truthiness (`truthy`), property access `value.length`
  (`lengthProp`, which throws a TypeError on null/undefined, modelled as
  `Except.error`), and string coercion for `RegExp.test` (`jsToString`).
* A regular expression is modelled as an opaque test predicate on the
  coerced string; a custom validator is an arbitrary function which may
  throw (`Except Unit Bool`); the awaited asynchronous case behaves, on
  the single-threaded event loop, exactly like the synchronous one.
* React state (`values`, `errors`, `isSubmitting`, `isValidating`) is an
  explicit record `EngineState`; JavaScript object maps are association
  lists with object-spread update semantics (`setKey`).
* A computation that can throw returns `Except`; where the thrown-at
  state matters the error value carries the state at the throw.
-/

/-- JavaScript values handled by the validator: null, undefined,
booleans, (integer) numbers and strings. -/
inductive JSValue where
  | vNull
  | vUndefined
  | vBool (b : Bool)
  | vNum (n : Int)
  | vStr (s : String)
  deriving DecidableEq

/-- JavaScript truthiness: null, undefined, false, 0 and "" are falsy. -/
def truthy : JSValue → Bool
  | .vNull => false
  | .vUndefined => false
  | .vBool b => b
  | .vNum n => n != 0
  | .vStr s => s != ""

/-- The JavaScript property access `value.length`: throws a TypeError on
null and undefined, yields the string length for strings, and `undefined`
(here `none`) for other primitives. -/
def lengthProp : JSValue → Except Unit (Option Nat)
  | .vNull => .error ()
  | .vUndefined => .error ()
  | .vStr s => .ok (some s.length)
  | .vBool _ => .ok none
  | .vNum _ => .ok none

/-- JavaScript `x < n` where `x` may be `undefined` (`none`): a comparison
against undefined is a NaN comparison and yields false. -/
def lenLt : Option Nat → Nat → Bool
  | some l, n => l < n
  | none, _ => false

/-- JavaScript `x > n` where `x` may be `undefined` (`none`). -/
def lenGt : Option Nat → Nat → Bool
  | some l, n => l > n
  | none, _ => false

/-- JavaScript string coercion, as applied by `RegExp.test` to its
argument. -/
def jsToString : JSValue → String
  | .vNull => "null"
  | .vUndefined => "undefined"
  | .vBool b => if b then "true" else "false"
  | .vNum n => toString n
  | .vStr s => s

/-- The `minLength` / `maxLength` rule: numeric bound plus message. -/
structure LengthRule where
  value : Nat
  message : String

/-- The `pattern` rule: a regular expression modelled as an opaque test
predicate on the coerced string, plus message. -/
structure PatternRule where
  test : String → Bool
  message : String

/-- The `custom` rule: a validator that may throw (or reject), plus
message. The awaited result is modelled synchronously. -/
structure CustomRule where
  validate : JSValue → Except Unit Bool
  message : String

/-- One field's `ValidationRule` object, every check optional, mirroring
the `ValidationRule` interface of the source. -/
structure ValidationRule where
  required : Option String := none
  minLength : Option LengthRule := none
  maxLength : Option LengthRule := none
  pattern : Option PatternRule := none
  custom : Option CustomRule := none

/-- Truthiness of `rules.required` (a string or undefined): present and
non-empty. -/
def requiredTruthy : Option String → Bool
  | some s => s != ""
  | none => false

/-- `else if (rules.custom) { ... await rules.custom.validate(value) ... }`:
the final link of the source's if/else chain. Yields the error message
computed for the field ("" when no check fails). -/
def evalCustom (r : ValidationRule) (v : JSValue) : Except Unit String :=
  match r.custom with
  | some c =>
    match c.validate v with
    | .error e => .error e
    | .ok isValid => .ok (if isValid then "" else c.message)
  | none => .ok ""

/-- `else if (rules.pattern && !rules.pattern.value.test(value))`. -/
def evalPattern (r : ValidationRule) (v : JSValue) : Except Unit String :=
  match r.pattern with
  | some p => if !p.test (jsToString v) then .ok p.message else evalCustom r v
  | none => evalCustom r v

/-- `else if (rules.maxLength && value.length > rules.maxLength.value)`;
the access `value.length` can throw. -/
def evalMaxLength (r : ValidationRule) (v : JSValue) : Except Unit String :=
  match r.maxLength with
  | some ml =>
    match lengthProp v with
    | .error e => .error e
    | .ok l => if lenGt l ml.value then .ok ml.message else evalPattern r v
  | none => evalPattern r v

/-- `else if (rules.minLength && value.length < rules.minLength.value)`;
the access `value.length` can throw. -/
def evalMinLength (r : ValidationRule) (v : JSValue) : Except Unit String :=
  match r.minLength with
  | some ml =>
    match lengthProp v with
    | .error e => .error e
    | .ok l => if lenLt l ml.value then .ok ml.message else evalMaxLength r v
  | none => evalMaxLength r v

/-- The whole if/else chain of `validateField` / `validateForm` for one
field: `if (rules.required && !value) { error = rules.required } else ...`. -/
def evalRules (r : ValidationRule) (v : JSValue) : Except Unit String :=
  if requiredTruthy r.required && !truthy v then .ok (r.required.getD "")
  else evalMinLength r v

/-- A JavaScript object used as a map: an association list in key order. -/
abbrev ValidationRules := List (String × ValidationRule)

abbrev FormErrors := List (String × String)

abbrev FormValues := List (String × JSValue)

/-- Key lookup in a JavaScript object (`obj[k]`, `undefined` ↦ `none`). -/
def lookupKey {α : Type} (m : List (String × α)) (k : String) : Option α :=
  match m with
  | [] => none
  | p :: rest => if p.1 = k then some p.2 else lookupKey rest k

/-- Object-spread update `{ ...m, [k]: v }`: an existing key keeps its
position with its value replaced, a new key is appended. -/
def setKey {α : Type} (m : List (String × α)) (k : String) (v : α) :
    List (String × α) :=
  match m with
  | [] => [(k, v)]
  | p :: rest => if p.1 = k then (k, v) :: rest else p :: setKey rest k v

instance {ε α : Type} [DecidableEq ε] [DecidableEq α] :
    DecidableEq (Except ε α) := fun x y =>
  match x, y with
  | .error a, .error b =>
    if h : a = b then isTrue (congrArg Except.error h)
    else isFalse fun hc => h (Except.error.inj hc)
  | .ok a, .ok b =>
    if h : a = b then isTrue (congrArg Except.ok h)
    else isFalse fun hc => h (Except.ok.inj hc)
  | .error _, .ok _ => isFalse fun hc => Except.noConfusion hc
  | .ok _, .error _ => isFalse fun hc => Except.noConfusion hc

/-- The React state owned by one `useForm` instance. -/
structure EngineState where
  values : FormValues
  errors : FormErrors
  isSubmitting : Bool
  isValidating : Bool
  deriving DecidableEq

/-- The error computed by `validateField(name, value)` before it is
stored: `''` when no rule set exists for the field, otherwise the result
of the rule chain. -/
def validateFieldError (rules : ValidationRules) (name : String)
    (v : JSValue) : Except Unit String :=
  match lookupKey rules name with
  | none => .ok ""
  | some r => evalRules r v

/-- `validateField(name, value)`: evaluates the field's rules and
unconditionally stores the outcome via
`setErrors(prev => ({ ...prev, [name]: error }))`; if the rule chain
throws, no store happens and the exception propagates. -/
def validateField (rules : ValidationRules) (st : EngineState)
    (name : String) (v : JSValue) : Except Unit EngineState :=
  match validateFieldError rules name v with
  | .error e => .error e
  | .ok err => .ok { st with errors := setKey st.errors name err }

/-- The `for (const name in validationRules)` loop of `validateForm`:
builds `newErrors` containing, in rule-set order, each field whose chain
produced a non-empty message; a field absent from `values` is read as
`undefined`. -/
def computeFormErrors (rules : ValidationRules) (values : FormValues) :
    Except Unit FormErrors :=
  match rules with
  | [] => .ok []
  | p :: rest =>
    match evalRules p.2 ((lookupKey values p.1).getD .vUndefined) with
    | .error e => .error e
    | .ok err =>
      match computeFormErrors rest values with
      | .error e => .error e
      | .ok restErrs =>
        .ok (if err != "" then (p.1, err) :: restErrs else restErrs)

/-- `validateForm(values)`: sets `isValidating` true, runs the loop,
replaces the whole `errors` map, clears `isValidating` and returns
`Object.keys(newErrors).length === 0`. If a rule chain throws mid-loop,
the stores after the loop never run: the error carries the state at the
throw (old `errors`, `isValidating` still true). -/
def validateFormS (rules : ValidationRules) (vals : FormValues)
    (st : EngineState) : Except EngineState (EngineState × Bool) :=
  let st1 := { st with isValidating := true }
  match computeFormErrors rules vals with
  | .error _ => .error st1
  | .ok newErrors =>
    .ok ({ st1 with errors := newErrors, isValidating := false },
         newErrors.isEmpty)

/-- Outcome of one invocation of the handler returned by
`handleSubmit(callback)`. -/
structure SubmitResult where
  state : EngineState
  callbackInvoked : Bool
  deriving DecidableEq

/-- The handler returned by `handleSubmit(callback)`: sets `isSubmitting`
true, runs `validateForm(values)`, awaits the callback only when the form
is valid, then sets `isSubmitting` false. There is no try/finally: when
`validateForm` or the callback throws, the trailing
`setIsSubmitting(false)` never runs; the error value carries the state at
the throw together with whether the callback had been invoked. -/
def handleSubmit (rules : ValidationRules)
    (cb : FormValues → Except Unit Unit) (st : EngineState) :
    Except (EngineState × Bool) SubmitResult :=
  let st1 := { st with isSubmitting := true }
  match validateFormS rules st1.values st1 with
  | .error stE => .error (stE, false)
  | .ok (st2, valid) =>
    if valid then
      match cb st2.values with
      | .error _ => .error (st2, true)
      | .ok _ => .ok ⟨{ st2 with isSubmitting := false }, true⟩
    else .ok ⟨{ st2 with isSubmitting := false }, false⟩

/-- Engine state together with the debounce timer. The source's
`debounce` closes over a single `debounceTimer` variable shared by every
call of the returned function — `debouncedValidateField` is one such
function for the whole form — so at most one delayed `validateField(name,
value)` call is ever pending, whatever the field; `pending` holds its
arguments. -/
structure DebouncedState where
  engine : EngineState
  pending : Option (String × JSValue)
  deriving DecidableEq

/-- `handleChange(name, value)`: merges the value into `values`
synchronously, then calls the debounced validator, which clears any
pending timer (for any field) and schedules `validateField(name, value)`. -/
def handleChange (st : DebouncedState) (name : String) (v : JSValue) :
    DebouncedState :=
  { engine := { st.engine with values := setKey st.engine.values name v },
    pending := some (name, v) }

/-- The debounce timer firing: executes the pending `validateField` call,
if any, and empties the slot. The first component reports which call (if
any) was executed. -/
def fireTimer (rules : ValidationRules) (st : DebouncedState) :
    Option (String × JSValue) × Except Unit DebouncedState :=
  match st.pending with
  | none => (none, .ok st)
  | some p =>
    (some p,
     match validateField rules st.engine p.1 p.2 with
     | .error e => .error e
     | .ok e2 => .ok ⟨e2, none⟩)

/-- A burst of `handleChange` calls within one debounce window (no timer
firing in between). -/
def handleChanges (st : DebouncedState) (calls : List (String × JSValue)) :
    DebouncedState :=
  calls.foldl (fun s c => handleChange s c.1 c.2) st

/-- `resetForm()`: `setValues(initialValues); setErrors({})` — nothing
else. -/
def resetForm (initialValues : FormValues) (st : EngineState) :
    EngineState :=
  { st with values := initialValues, errors := [] }

/-!
Specification-side description of per-field rule evaluation, written from
the spec's words alone: a fixed ordered list of checks — required,
minLength, maxLength, pattern, custom — each reporting `some message` on
failure and `none` on success, evaluated left to right, the first failure
ending evaluation with its message and "" reported when every check
passes. The refinement theorem for C1 compares the source-side `evalRules`
with this description.
-/

/-- A single check: `some message` means the check fails with that
message, `none` means it passes; the check itself may throw. -/
abbrev FieldCheck := JSValue → Except Unit (Option String)

/-- The required check, from the source's guard. -/
def requiredCheck (r : ValidationRule) : FieldCheck := fun v =>
  .ok (if requiredTruthy r.required && !truthy v
       then some (r.required.getD "") else none)

/-- The minLength check in isolation. -/
def minLengthCheck (r : ValidationRule) : FieldCheck := fun v =>
  match r.minLength with
  | some ml =>
    (lengthProp v).map fun l =>
      if lenLt l ml.value then some ml.message else none
  | none => .ok none

/-- The maxLength check in isolation. -/
def maxLengthCheck (r : ValidationRule) : FieldCheck := fun v =>
  match r.maxLength with
  | some ml =>
    (lengthProp v).map fun l =>
      if lenGt l ml.value then some ml.message else none
  | none => .ok none

/-- The pattern check in isolation. -/
def patternCheck (r : ValidationRule) : FieldCheck := fun v =>
  match r.pattern with
  | some p => .ok (if !p.test (jsToString v) then some p.message else none)
  | none => .ok none

/-- The custom check in isolation. -/
def customCheck (r : ValidationRule) : FieldCheck := fun v =>
  match r.custom with
  | some c =>
    (c.validate v).map fun isValid =>
      if isValid then none else some c.message
  | none => .ok none

/-- The fixed order of the five checks, per the spec: required →
minLength → maxLength → pattern → custom. -/
def ruleChecks (r : ValidationRule) : List FieldCheck :=
  [requiredCheck r, minLengthCheck r, maxLengthCheck r, patternCheck r,
   customCheck r]

/-- Left-to-right evaluation that stops at the first failing check and
yields its message, or "" when all checks pass. -/
def firstFailing : List FieldCheck → JSValue → Except Unit String
  | [], _ => .ok ""
  | c :: cs, v =>
    match c v with
    | .error e => .error e
    | .ok (some msg) => .ok msg
    | .ok none => firstFailing cs v

theorem evalCustom_eq_firstFailing (r : ValidationRule) (v : JSValue) :
    evalCustom r v = firstFailing [customCheck r] v := by
  unfold evalCustom customCheck firstFailing
  cases r.custom with
  | none => rfl
  | some c =>
    cases h : c.validate v with
    | error e => simp [Except.map, h]
    | ok b => cases b <;> simp [Except.map, h, firstFailing]

theorem evalPattern_eq_firstFailing (r : ValidationRule) (v : JSValue) :
    evalPattern r v = firstFailing [patternCheck r, customCheck r] v := by
  unfold evalPattern patternCheck
  cases r.pattern with
  | none => simpa [firstFailing] using evalCustom_eq_firstFailing r v
  | some p =>
    cases h : p.test (jsToString v) with
    | false => simp [firstFailing, h]
    | true =>
      simpa [firstFailing, h] using evalCustom_eq_firstFailing r v

theorem evalMaxLength_eq_firstFailing (r : ValidationRule) (v : JSValue) :
    evalMaxLength r v =
      firstFailing [maxLengthCheck r, patternCheck r, customCheck r] v := by
  unfold evalMaxLength maxLengthCheck
  cases r.maxLength with
  | none =>
    simpa [firstFailing] using evalPattern_eq_firstFailing r v
  | some ml =>
    cases h : lengthProp v with
    | error e => simp [firstFailing, Except.map, h]
    | ok l =>
      cases hgt : lenGt l ml.value with
      | false =>
        simpa [firstFailing, Except.map, h, hgt] using
          evalPattern_eq_firstFailing r v
      | true => simp [firstFailing, Except.map, h, hgt]

theorem evalMinLength_eq_firstFailing (r : ValidationRule) (v : JSValue) :
    evalMinLength r v =
      firstFailing [minLengthCheck r, maxLengthCheck r, patternCheck r,
        customCheck r] v := by
  unfold evalMinLength minLengthCheck
  cases r.minLength with
  | none =>
    simpa [firstFailing] using evalMaxLength_eq_firstFailing r v
  | some ml =>
    cases h : lengthProp v with
    | error e => simp [firstFailing, Except.map, h]
    | ok l =>
      cases hlt : lenLt l ml.value with
      | false =>
        simpa [firstFailing, Except.map, h, hlt] using
          evalMaxLength_eq_firstFailing r v
      | true => simp [firstFailing, Except.map, h, hlt]

theorem evalRules_eq_firstFailing (r : ValidationRule) (v : JSValue) :
    evalRules r v = firstFailing (ruleChecks r) v := by
  unfold evalRules ruleChecks requiredCheck
  cases hg : requiredTruthy r.required && !truthy v with
  | false =>
    simpa [firstFailing, hg] using evalMinLength_eq_firstFailing r v
  | true => simp [firstFailing, hg]

theorem lookupKey_setKey_self {α : Type} (m : List (String × α))
    (k : String) (v : α) : lookupKey (setKey m k v) k = some v := by
  induction m with
  | nil => simp [setKey, lookupKey]
  | cons p rest ih =>
    by_cases h : p.1 = k
    · simp [setKey, h, lookupKey]
    · simp [setKey, h, lookupKey, ih]

theorem lookupKey_setKey_ne {α : Type} (m : List (String × α))
    (k k2 : String) (v : α) (h : k2 ≠ k) :
    lookupKey (setKey m k v) k2 = lookupKey m k2 := by
  induction m with
  | nil => simp [setKey, lookupKey, if_neg (Ne.symm h)]
  | cons p rest ih =>
    by_cases hp : p.1 = k
    · simp [setKey, hp, lookupKey, if_neg (Ne.symm h)]
    · simp [setKey, hp, lookupKey, ih]

theorem mem_keys_setKey {α : Type} (m : List (String × α)) (k x : String)
    (v : α) :
    x ∈ (setKey m k v).map Prod.fst ↔ x ∈ m.map Prod.fst ∨ x = k := by
  induction m with
  | nil => simp [setKey]
  | cons p rest ih =>
    by_cases hp : p.1 = k
    · subst hp
      simp only [setKey, if_pos rfl, List.map, List.mem_cons]
      tauto
    · simp only [setKey, if_neg hp, List.map, List.mem_cons, ih]
      tauto

theorem nodup_keys_setKey {α : Type} (m : List (String × α)) (k : String)
    (v : α) (h : (m.map Prod.fst).Nodup) :
    ((setKey m k v).map Prod.fst).Nodup := by
  induction m with
  | nil => simp [setKey]
  | cons p rest ih =>
    simp only [List.map, List.nodup_cons] at h
    by_cases hp : p.1 = k
    · subst hp
      simpa [setKey, List.nodup_cons] using h
    · simp only [setKey, if_neg hp, List.map, List.nodup_cons,
        mem_keys_setKey]
      exact ⟨by tauto, ih h.2⟩

theorem computeFormErrors_keys (rules : ValidationRules)
    (values : FormValues) (errs : FormErrors)
    (h : computeFormErrors rules values = .ok errs) :
    ∀ x, x ∈ errs.map Prod.fst → x ∈ rules.map Prod.fst := by
  induction rules generalizing errs with
  | nil =>
    simp only [computeFormErrors, Except.ok.injEq] at h
    subst h; simp
  | cons p rest ih =>
    simp only [computeFormErrors] at h
    cases h1 : evalRules p.2 ((lookupKey values p.1).getD .vUndefined) with
    | error e => simp [h1] at h
    | ok err =>
      cases h2 : computeFormErrors rest values with
      | error e => simp [h1, h2] at h
      | ok restErrs =>
        simp only [h1, h2, Except.ok.injEq] at h
        subst h
        intro x hx
        by_cases he : err != ""
        · simp only [if_pos he, List.map, List.mem_cons] at hx
          rcases hx with hx | hx
          · simp [hx]
          · simp only [List.map, List.mem_cons]
            exact Or.inr (ih restErrs h2 x hx)
        · simp only [if_neg he] at hx
          simp only [List.map, List.mem_cons]

          exact Or.inr (ih restErrs h2 x hx)

theorem lookupKey_eq_none_of_not_mem {α : Type} (m : List (String × α))
    (k : String) (h : k ∉ m.map Prod.fst) : lookupKey m k = none := by
  induction m with
  | nil => rfl
  | cons p rest ih =>
    simp only [List.map, List.mem_cons] at h
    push_neg at h
    simp [lookupKey, if_neg (Ne.symm h.1), ih h.2]

/-- Lookup characterization of the `validateForm` loop: under distinct
rule-set keys, `newErrors` holds exactly the fields whose rule chain
produced a non-empty message, evaluated at `values[name]` (undefined when
absent). -/
theorem computeFormErrors_lookup (rules : ValidationRules)
    (values : FormValues) (errs : FormErrors)
    (hnd : (rules.map Prod.fst).Nodup)
    (h : computeFormErrors rules values = .ok errs) :
    ∀ name msg, lookupKey errs name = some msg ↔
      ∃ r, lookupKey rules name = some r ∧
        evalRules r ((lookupKey values name).getD .vUndefined) = .ok msg ∧
        msg ≠ "" := by
  induction rules generalizing errs with
  | nil =>
    simp only [computeFormErrors, Except.ok.injEq] at h
    subst h
    intro name msg
    simp [lookupKey]
  | cons p rest ih =>
    simp only [computeFormErrors] at h
    cases h1 : evalRules p.2 ((lookupKey values p.1).getD .vUndefined) with
    | error e => simp [h1] at h
    | ok err =>
      cases h2 : computeFormErrors rest values with
      | error e => simp [h1, h2] at h
      | ok restErrs =>
        simp only [h1, h2, Except.ok.injEq] at h
        subst h
        simp only [List.map, List.nodup_cons] at hnd
        intro name msg
        by_cases hn : p.1 = name
        · subst hn
          have hrest : lookupKey restErrs p.1 = none :=
            lookupKey_eq_none_of_not_mem restErrs p.1
              (fun hm => hnd.1 (computeFormErrors_keys rest values
                restErrs h2 p.1 hm))
          by_cases he : err = ""
          · rw [if_neg (by simp [he] : ¬((err != "") = true)), hrest]
            simp only [lookupKey, eq_self_iff_true, if_true,
              Option.some.injEq]
            constructor
            · intro hc; exact absurd hc (by simp)
            · rintro ⟨r, hr, hev, hne⟩
              subst hr
              rw [h1] at hev
              exact absurd (((Except.ok.inj hev).symm).trans he) hne
          · rw [if_pos (by simp [he] : ((err != "") = true))]
            simp only [lookupKey, eq_self_iff_true, if_true,
              Option.some.injEq]
            constructor
            · intro hc; subst hc
              exact ⟨p.2, rfl, h1, he⟩
            · rintro ⟨r, hr, hev, _⟩
              subst hr
              rw [h1] at hev
              exact Except.ok.inj hev
        · have hstep : lookupKey (if err != "" then (p.1, err) :: restErrs
              else restErrs) name = lookupKey restErrs name := by
            by_cases he : (err != "") = true
            · rw [if_pos he]
              simp [lookupKey, if_neg hn]
            · rw [if_neg he]
          rw [hstep, ih restErrs hnd.2 h2 name msg]
          simp only [lookupKey, if_neg hn]

/-!
Claim theorems. Each claim of the specification is settled against the
embedded engine; concrete rule sets used as witnesses or counterexamples
follow the examples in the repository's test suite.
-/

/-- Claim C1: for every field name and value, `validateField` evaluates
the field's rules in the fixed order required → minLength → maxLength →
pattern → custom, stops at the first failing rule and writes that rule's
message into `errors[name]`; it writes an empty error for the field when
all rules pass or when no rule set exists for the field. Stated as a
refinement: `validateField` coincides with the spec-side first-failing
evaluation `firstFailing` over the ordered check list `ruleChecks`,
its outcome stored under the field's key (and where that evaluation
throws, `validateField` throws identically). -/
theorem spec_C1 (rules : ValidationRules) (st : EngineState)
    (name : String) (v : JSValue) :
    validateField rules st name v =
      (match lookupKey rules name with
       | none => Except.ok ""
       | some r => firstFailing (ruleChecks r) v).map
        (fun err => { st with errors := setKey st.errors name err }) := by
  unfold validateField validateFieldError
  cases lookupKey rules name with
  | none => rfl
  | some r =>
    dsimp only
    rw [← evalRules_eq_firstFailing]
    cases h : evalRules r v <;> simp [h, Except.map]

/-- Claim C10: after `resetForm()`, regardless of the prior state,
`values` equals the `initialValues` snapshot and `errors` is empty;
`resetForm` runs no validation — in particular it leaves the
`isSubmitting` and `isValidating` flags untouched and recomputes
nothing from the rule set (the rule set is not even an input of
`resetForm`). -/
theorem spec_C10 (initialValues : FormValues) (st : EngineState) :
    (resetForm initialValues st).values = initialValues ∧
    (resetForm initialValues st).errors = [] ∧
    (resetForm initialValues st).isSubmitting = st.isSubmitting ∧
    (resetForm initialValues st).isValidating = st.isValidating :=
  ⟨rfl, rfl, rfl, rfl⟩

/-- Claim C2: whenever `validateForm(values)` returns, it has evaluated
the rules for every field present in the rule set (a field absent from
`values` is evaluated at `undefined`), the resulting `errors` map holds
exactly the fields whose evaluation failed — independently of the
previous `errors` — and the returned flag is true iff no field failed. -/
theorem spec_C2 (rules : ValidationRules) (vals : FormValues)
    (st st2 : EngineState) (valid : Bool)
    (hnd : (rules.map Prod.fst).Nodup)
    (h : validateFormS rules vals st = .ok (st2, valid)) :
    (∀ name msg, lookupKey st2.errors name = some msg ↔
      ∃ r, lookupKey rules name = some r ∧
        evalRules r ((lookupKey vals name).getD .vUndefined) = .ok msg ∧
        msg ≠ "") ∧
    (valid = true ↔ st2.errors = []) := by
  unfold validateFormS at h
  cases hc : computeFormErrors rules vals with
  | error e => rw [hc] at h; exact absurd h (by simp)
  | ok newErrors =>
    rw [hc] at h
    simp only [Except.ok.injEq, Prod.mk.injEq] at h
    obtain ⟨hst, hvalid⟩ := h
    subst hst
    subst hvalid
    constructor
    · intro name msg
      simpa using computeFormErrors_lookup rules vals newErrors hnd hc
        name msg
    · simp [List.isEmpty_iff]

/-- Concrete rule set for witnesses: a required username, per the test
suite. -/
def ruleRequired : ValidationRule := { required := some "Username is required" }

def rulesReq : ValidationRules := [("username", ruleRequired)]

def stEmpty : EngineState :=
  { values := [], errors := [], isSubmitting := false, isValidating := false }

def stStale : EngineState :=
  { values := [], errors := [("stale", "old")], isSubmitting := false,
    isValidating := false }

def stReqFail : EngineState :=
  { values := [], errors := [("username", "Username is required")],
    isSubmitting := false, isValidating := false }

/-- Witness for C2: a rule set with a required username and no values at
all — the field is still evaluated (at `undefined`), fails, is the only
entry of the replaced `errors` map, and the form is reported invalid. -/
theorem spec_C2_witness :
    (lookupKey stReqFail.errors "username" = some "Username is required" ↔
      ∃ r, lookupKey rulesReq "username" = some r ∧
        evalRules r ((lookupKey ([] : FormValues) "username").getD
          .vUndefined) = .ok "Username is required" ∧
        ("Username is required" : String) ≠ "") ∧
    (false = true ↔ stReqFail.errors = []) :=
  ⟨(spec_C2 rulesReq [] stStale stReqFail false (by decide)
      (by decide)).1 "username" "Username is required",
   (spec_C2 rulesReq [] stStale stReqFail false (by decide)
      (by decide)).2⟩

/-- Whether the submit callback was invoked during one run of the
handler returned by `handleSubmit`. -/
def submitInvoked : Except (EngineState × Bool) SubmitResult → Bool
  | .ok r => r.callbackInvoked
  | .error p => p.2

/-- Claim C3: when `validateForm` on the current values reports the form
invalid (its loop completes with at least one failing field), the
callback supplied to `handleSubmit` is never invoked. -/
theorem spec_C3 (rules : ValidationRules)
    (cb : FormValues → Except Unit Unit) (st : EngineState)
    (errs : FormErrors) (h : computeFormErrors rules st.values = .ok errs)
    (hne : errs ≠ []) :
    submitInvoked (handleSubmit rules cb st) = false := by
  have hie : errs.isEmpty = false := by
    cases errs with
    | nil => exact absurd rfl hne
    | cons p rest => rfl
  simp only [handleSubmit, validateFormS]
  rw [h]
  simp [hie, submitInvoked]

/-- Witness for C3: submitting the required-username form with no values
never invokes the callback. -/
theorem spec_C3_witness :
    submitInvoked (handleSubmit rulesReq (fun _ => .ok ()) stEmpty) =
      false :=
  spec_C3 rulesReq (fun _ => .ok ()) stEmpty
    [("username", "Username is required")] (by decide) (by decide)

theorem evalCustom_isOk (r : ValidationRule) (v : JSValue)
    (hcu : ∀ c, r.custom = some c → ∃ b, c.validate v = .ok b) :
    ∃ msg, evalCustom r v = .ok msg := by
  cases hco : r.custom with
  | none => exact ⟨"", by simp [evalCustom, hco]⟩
  | some c =>
    obtain ⟨b, hb⟩ := hcu c hco
    exact ⟨if b then "" else c.message, by simp [evalCustom, hco, hb]⟩

theorem evalPattern_isOk (r : ValidationRule) (v : JSValue)
    (hcu : ∀ c, r.custom = some c → ∃ b, c.validate v = .ok b) :
    ∃ msg, evalPattern r v = .ok msg := by
  obtain ⟨msg, hm⟩ := evalCustom_isOk r v hcu
  cases hpa : r.pattern with
  | none => exact ⟨msg, by simp [evalPattern, hpa, hm]⟩
  | some p =>
    cases hp : p.test (jsToString v) with
    | false => exact ⟨p.message, by simp [evalPattern, hpa, hp]⟩
    | true => exact ⟨msg, by simp [evalPattern, hpa, hp, hm]⟩

theorem evalMaxLength_isOk (r : ValidationRule) (v : JSValue)
    (hlen : ∃ l, lengthProp v = .ok l)
    (hcu : ∀ c, r.custom = some c → ∃ b, c.validate v = .ok b) :
    ∃ msg, evalMaxLength r v = .ok msg := by
  obtain ⟨msg, hm⟩ := evalPattern_isOk r v hcu
  cases hma : r.maxLength with
  | none => exact ⟨msg, by simp [evalMaxLength, hma, hm]⟩
  | some ml =>
    obtain ⟨l, hl⟩ := hlen
    cases hgt : lenGt l ml.value with
    | false => exact ⟨msg, by simp [evalMaxLength, hma, hl, hgt, hm]⟩
    | true => exact ⟨ml.message, by simp [evalMaxLength, hma, hl, hgt]⟩

theorem evalMinLength_isOk (r : ValidationRule) (v : JSValue)
    (hlen : ∃ l, lengthProp v = .ok l)
    (hcu : ∀ c, r.custom = some c → ∃ b, c.validate v = .ok b) :
    ∃ msg, evalMinLength r v = .ok msg := by
  obtain ⟨msg, hm⟩ := evalMaxLength_isOk r v hlen hcu
  cases hmi : r.minLength with
  | none => exact ⟨msg, by simp [evalMinLength, hmi, hm]⟩
  | some ml =>
    obtain ⟨l, hl⟩ := hlen
    cases hlt : lenLt l ml.value with
    | false => exact ⟨msg, by simp [evalMinLength, hmi, hl, hlt, hm]⟩
    | true => exact ⟨ml.message, by simp [evalMinLength, hmi, hl, hlt]⟩

theorem evalRules_isOk (r : ValidationRule) (v : JSValue)
    (hlen : ∃ l, lengthProp v = .ok l)
    (hcu : ∀ c, r.custom = some c → ∃ b, c.validate v = .ok b) :
    ∃ msg, evalRules r v = .ok msg := by
  obtain ⟨msg, hm⟩ := evalMinLength_isOk r v hlen hcu
  cases hg : requiredTruthy r.required && !truthy v with
  | false => exact ⟨msg, by simp [evalRules, hg, hm]⟩
  | true => exact ⟨r.required.getD "", by simp [evalRules, hg]⟩

theorem lengthProp_isOk (v : JSValue) (hv1 : v ≠ .vNull)
    (hv2 : v ≠ .vUndefined) : ∃ l, lengthProp v = .ok l := by
  cases v with
  | vNull => exact absurd rfl hv1
  | vUndefined => exact absurd rfl hv2
  | vBool b => exact ⟨none, rfl⟩
  | vNum n => exact ⟨none, rfl⟩
  | vStr s => exact ⟨some s.length, rfl⟩

/-- A rule set with a minLength rule and no required rule, as
counterexample input. -/
def ruleMinOnly : ValidationRule := { minLength := some ⟨3, "too short"⟩ }

def rulesMinOnly : ValidationRules := [("bio", ruleMinOnly)]

/-- Counterexample for claim C6: the claim says `validateField`
terminates normally without throwing for every value, including null and
undefined. It does not: with a minLength rule and no required rule, a
null value reaches the access `value.length`, which throws a TypeError —
`validateField` propagates the exception and records nothing in
`errors`. -/
theorem spec_C6_cex :
    validateField rulesMinOnly stEmpty "bio" .vNull = .error () ∧
    validateField rulesMinOnly stEmpty "bio" .vUndefined = .error () := by
  exact ⟨by decide, by decide⟩

/-- Claim C6 as amended: `validateField(name, value)` terminates normally
without throwing, with the outcome recorded in `errors[name]`, for every
field name and every value other than null and undefined (values without
a length property, such as numbers and booleans, are safe: the length
comparisons see `undefined` and simply do not fail), provided the field's
custom validator, if any, returns normally; for null and undefined a
TypeError can escape when a minLength/maxLength rule is reached. -/
theorem spec_C6 (rules : ValidationRules) (st : EngineState)
    (name : String) (v : JSValue) (hv1 : v ≠ .vNull)
    (hv2 : v ≠ .vUndefined)
    (hcu : ∀ r c, lookupKey rules name = some r → r.custom = some c →
      ∃ b, c.validate v = .ok b) :
    ∃ st2, validateField rules st name v = .ok st2 ∧
      ∃ msg, lookupKey st2.errors name = some msg := by
  cases hr : lookupKey rules name with
  | none =>
    refine ⟨{ st with errors := setKey st.errors name "" }, ?_,
      "", lookupKey_setKey_self st.errors name ""⟩
    simp [validateField, validateFieldError, hr]
  | some r =>
    obtain ⟨msg, hm⟩ := evalRules_isOk r v (lengthProp_isOk v hv1 hv2)
      (fun c hc => hcu r c hr hc)
    refine ⟨{ st with errors := setKey st.errors name msg }, ?_,
      msg, lookupKey_setKey_self st.errors name msg⟩
    simp [validateField, validateFieldError, hr, hm]

/-- A rule set exercising every kind of check at once, for the C6
witness: required, minLength, maxLength, pattern and custom. -/
def ruleFull : ValidationRule :=
  { required := some "Username is required",
    minLength := some ⟨3, "Username must be at least 3 characters"⟩,
    maxLength := some ⟨10, "Too long"⟩,
    pattern := some ⟨fun s => s ≠ "bad", "Invalid"⟩,
    custom := some ⟨fun w => .ok (w ≠ .vStr "taken"),
      "Username is already taken"⟩ }

def rulesFull : ValidationRules := [("username", ruleFull)]

/-- Witness for the amended C6: a number — a value without a length
property — runs through a rule set with every kind of check without
throwing, and the outcome lands in `errors`. -/
theorem spec_C6_witness :
    ∃ st2, validateField rulesFull stEmpty "username" (.vNum 7) =
        .ok st2 ∧ ∃ msg, lookupKey st2.errors "username" = some msg :=
  spec_C6 rulesFull stEmpty "username" (.vNum 7) (by decide) (by decide)
    (fun r c hr hc => by
      have hr2 : ruleFull = r := by
        simpa [rulesFull, lookupKey] using hr
      subst hr2
      have hc2 : (⟨fun w => .ok (w ≠ .vStr "taken"),
          "Username is already taken"⟩ : CustomRule) = c := by
        simpa [ruleFull] using hc
      subst hc2
      exact ⟨true, by decide⟩)

/-- The value of `isSubmitting` when the submit handler finishes, whether
it returns normally or propagates an exception. -/
def submitEndsSubmitting : Except (EngineState × Bool) SubmitResult → Bool
  | .ok r => r.state.isSubmitting
  | .error p => p.1.isSubmitting

/-- A submit callback that throws (or returns a rejected promise). -/
def cbThrow : FormValues → Except Unit Unit := fun _ => .error ()

/-- Counterexample for claim C7: the claim says `isSubmitting` is false
by the time the handler returns regardless of what the callback does. It
is not: with an empty rule set (the form is valid) and a callback that
throws, `handleSubmit`'s trailing `setIsSubmitting(false)` is never
reached — there is no try/finally — and the handler propagates the
exception with `isSubmitting` still true. -/
theorem spec_C7_cex :
    submitEndsSubmitting (handleSubmit [] cbThrow stEmpty) = true ∧
    submitInvoked (handleSubmit [] cbThrow stEmpty) = true := by
  exact ⟨by decide, by decide⟩

/-- Claim C7 as amended: whenever the handler returned by
`handleSubmit(callback)` returns normally — which it does whenever the
custom validators and the callback return normally — `isSubmitting` is
false on return, whether validation passed or failed; when the callback
or a custom validator throws, the exception propagates and `isSubmitting`
is left true. -/
theorem spec_C7 (rules : ValidationRules)
    (cb : FormValues → Except Unit Unit) (st : EngineState)
    (res : SubmitResult) (h : handleSubmit rules cb st = .ok res) :
    res.state.isSubmitting = false := by
  unfold handleSubmit at h
  dsimp only at h
  cases hv : validateFormS rules st.values
      { st with isSubmitting := true } with
  | error stE => rw [hv] at h; exact absurd h (by simp)
  | ok p =>
    obtain ⟨st2, valid⟩ := p
    rw [hv] at h
    cases valid with
    | false =>
      simp only [Bool.false_eq_true, if_false, Except.ok.injEq] at h
      subst h
      rfl
    | true =>
      simp only [if_true] at h
      cases hcb : cb st2.values with
      | error e => rw [hcb] at h; exact absurd h (by simp)
      | ok u =>
        rw [hcb] at h
        simp only [Except.ok.injEq] at h
        subst h
        rfl

/-- Witness for the amended C7: an invalid submission (required username
missing) returns normally with `isSubmitting` false. -/
theorem spec_C7_witness :
    ({ state := stReqFail, callbackInvoked := false } :
      SubmitResult).state.isSubmitting = false :=
  spec_C7 rulesReq (fun _ => .ok ()) stEmpty
    { state := stReqFail, callbackInvoked := false } (by decide)

/-- A field whose required rule carries an empty message, next to a
minLength rule, as counterexample input. -/
def ruleEmptyReq : ValidationRule :=
  { required := some "", minLength := some ⟨3, "too short"⟩ }

def rulesEmptyReq : ValidationRules := [("nick", ruleEmptyReq)]

/-- Counterexample for claim C8: the claim says every field with a
required rule yields exactly the required message on a falsy value. Not
so when the required message is the empty string: the source's guard
`rules.required && !value` tests the truthiness of the message itself, so
an empty required message is skipped and a later rule's message — here
the minLength message — is produced instead of the field's required
message. -/
theorem spec_C8_cex :
    ruleEmptyReq.required = some "" ∧
    truthy (.vStr "") = false ∧
    validateFieldError rulesEmptyReq "nick" (.vStr "") = .ok "too short" ∧
    ("too short" : String) ≠ "" := by
  exact ⟨by decide, by decide, by decide, by decide⟩

/-- Claim C8 as amended: for every field whose required rule carries a
non-empty message, `validateField` on a falsy value yields exactly the
required message, and on a truthy value it yields whatever the remaining
checks yield — in particular no message at all when the value passes all
the field's other rules. -/
theorem spec_C8 (rules : ValidationRules) (name : String)
    (r : ValidationRule) (msg : String) (v : JSValue)
    (hr : lookupKey rules name = some r) (hm : r.required = some msg)
    (hne : msg ≠ "") :
    (truthy v = false → validateFieldError rules name v = .ok msg) ∧
    (truthy v = true →
      firstFailing [minLengthCheck r, maxLengthCheck r, patternCheck r,
        customCheck r] v = .ok "" →
      validateFieldError rules name v = .ok "") := by
  constructor
  · intro hf
    unfold validateFieldError
    rw [hr]
    dsimp only
    unfold evalRules
    rw [if_pos (by simp [requiredTruthy, hm, hf, hne])]
    simp [hm]
  · intro ht hpass
    unfold validateFieldError
    rw [hr]
    dsimp only
    unfold evalRules
    rw [if_neg (by simp [ht])]
    rw [evalMinLength_eq_firstFailing]
    exact hpass

/-- Witness for the amended C8: the required-username field yields its
required message on the falsy empty string, and no message on a truthy
value passing its (absent) other rules. -/
theorem spec_C8_witness :
    validateFieldError rulesReq "username" (.vStr "") =
        .ok "Username is required" ∧
    validateFieldError rulesReq "username" (.vStr "bob") = .ok "" :=
  ⟨(spec_C8 rulesReq "username" ruleRequired "Username is required"
      (.vStr "") (by simp [rulesReq, lookupKey]) rfl (by decide)).1
      (by decide),
   (spec_C8 rulesReq "username" ruleRequired "Username is required"
      (.vStr "bob") (by simp [rulesReq, lookupKey]) rfl (by decide)).2
      (by decide) (by decide)⟩

/-- A field failing both its minLength rule and its pattern rule, as
counterexample input. -/
def ruleMinPattern : ValidationRule :=
  { minLength := some ⟨5, "A"⟩, pattern := some ⟨fun _ => false, "B"⟩ }

def rulesMinPattern : ValidationRules := [("f", ruleMinPattern)]

/-- Counterexample for claim C9: the claim says that when several rules
fail, the message of the LAST failing rule in evaluation order is
recorded. In the source the if/else chain stops at the FIRST failing
rule: on a value failing both minLength and pattern, the recorded message
is the minLength one, not the pattern one. -/
theorem spec_C9_cex :
    minLengthCheck ruleMinPattern (.vStr "ab") = .ok (some "A") ∧
    patternCheck ruleMinPattern (.vStr "ab") = .ok (some "B") ∧
    validateFieldError rulesMinPattern "f" (.vStr "ab") = .ok "A" ∧
    ("A" : String) ≠ "B" := by
  exact ⟨by decide, by decide, by decide, by decide⟩

theorem firstFailing_first_fail (cs1 : List FieldCheck) (c : FieldCheck)
    (cs2 : List FieldCheck) (v : JSValue) (msg : String)
    (hpass : ∀ c1 ∈ cs1, c1 v = .ok none)
    (hfail : c v = .ok (some msg)) :
    firstFailing (cs1 ++ c :: cs2) v = .ok msg := by
  induction cs1 with
  | nil => simp [firstFailing, hfail]
  | cons c1 rest ih =>
    have h1 : c1 v = .ok none := hpass c1 (by simp)
    have h2 : ∀ cx ∈ rest, cx v = .ok none := fun cx hx =>
      hpass cx (List.mem_cons_of_mem c1 hx)
    simp only [List.cons_append, firstFailing, h1]
    exact ih h2

/-- Claim C9 as amended: at most one error message is recorded per field
(the `errors` map keeps distinct keys and `validateField` stores exactly
one message under the field's key), and when a field's value fails more
than one rule the recorded message is that of the FIRST failing rule in
evaluation order: for every decomposition of the ordered check list
required → minLength → maxLength → pattern → custom in which every check
before some failing check passes, the failing check's message is the one
recorded, whatever the later checks do. -/
theorem spec_C9 (rules : ValidationRules) (st : EngineState)
    (name : String) (v : JSValue) (st2 : EngineState)
    (hnd : (st.errors.map Prod.fst).Nodup)
    (h : validateField rules st name v = .ok st2) :
    (st2.errors.map Prod.fst).Nodup ∧
    (∀ r cs1 c cs2 msg, lookupKey rules name = some r →
      ruleChecks r = cs1 ++ c :: cs2 →
      (∀ c1 ∈ cs1, c1 v = .ok none) →
      c v = .ok (some msg) →
      lookupKey st2.errors name = some msg) := by
  cases hfe : validateFieldError rules name v with
  | error e =>
    unfold validateField at h
    rw [hfe] at h
    exact absurd h (by simp)
  | ok err =>
    unfold validateField at h
    rw [hfe] at h
    simp only [Except.ok.injEq] at h
    subst h
    refine ⟨nodup_keys_setKey st.errors name err hnd, ?_⟩
    intro r cs1 c cs2 msg hr hdec hpass hfail
    have hfe2 : evalRules r v = .ok err := by
      have h0 := hfe
      unfold validateFieldError at h0
      rw [hr] at h0
      exact h0
    have hff : firstFailing (ruleChecks r) v = .ok msg := by
      rw [hdec]
      exact firstFailing_first_fail cs1 c cs2 v msg hpass hfail
    have herr : err = msg :=
      Except.ok.inj (hfe2.symm.trans
        ((evalRules_eq_firstFailing r v).trans hff))
    subst herr
    exact lookupKey_setKey_self st.errors name err

/-- A field whose pattern rule and custom rule both fail, with nothing
before them failing, for the C9 witness. -/
def rulePatCustom : ValidationRule :=
  { pattern := some ⟨fun _ => false, "P"⟩,
    custom := some ⟨fun _ => .ok false, "C"⟩ }

def rulesPatCustom : ValidationRules := [("g", rulePatCustom)]

/-- Final engine state for the C9 witness. -/
def stC9After : EngineState :=
  { values := [], errors := [("g", "P")], isSubmitting := false,
    isValidating := false }

/-- Witness for the amended C9: a value failing both its pattern rule
and its custom rule records exactly the pattern message — the first
failing check in order, with required, minLength and maxLength all
passing before it — under distinct keys. -/
theorem spec_C9_witness :
    (stC9After.errors.map Prod.fst).Nodup ∧
    lookupKey stC9After.errors "g" = some "P" :=
  ⟨(spec_C9 rulesPatCustom stEmpty "g" (.vStr "x") stC9After
      (by decide) (by decide)).1,
   (spec_C9 rulesPatCustom stEmpty "g" (.vStr "x") stC9After
      (by decide) (by decide)).2 rulePatCustom
      [requiredCheck rulePatCustom, minLengthCheck rulePatCustom,
        maxLengthCheck rulePatCustom]
      (patternCheck rulePatCustom) [customCheck rulePatCustom] "P"
      (by simp [rulesPatCustom, lookupKey]) rfl
      (by
        intro c1 hc1
        simp only [List.mem_cons, List.not_mem_nil, or_false] at hc1
        rcases hc1 with rfl | rfl | rfl
        · decide
        · decide
        · decide)
      (by decide)⟩

theorem fireTimer_pending_some (rules : ValidationRules)
    (st : DebouncedState) (p : String × JSValue)
    (hp : st.pending = some p) :
    (fireTimer rules st).1 = some p ∧
    ∀ st2, (fireTimer rules st).2 = .ok st2 → st2.pending = none := by
  unfold fireTimer
  rw [hp]
  dsimp only
  refine ⟨rfl, ?_⟩
  intro st2 h
  cases hv : validateField rules st.engine p.1 p.2 with
  | error e => rw [hv] at h; exact absurd h (by simp)
  | ok e2 =>
    rw [hv] at h
    simp only [Except.ok.injEq] at h
    subst h
    rfl

theorem fireTimer_pending_none (rules : ValidationRules)
    (st : DebouncedState) (hp : st.pending = none) :
    fireTimer rules st = (none, .ok st) := by
  unfold fireTimer
  rw [hp]

/-- Claim C4: three `handleChange` calls for the same field within one
debounce window (no timer firing in between) leave exactly one pending
validation, carrying the last supplied value; firing the timer executes
that single validation and leaves nothing pending (so a further firing
executes nothing) — the earlier two are cancelled, never queued. -/
theorem spec_C4 (rules : ValidationRules) (st : DebouncedState)
    (n : String) (v1 v2 v3 : JSValue) :
    (fireTimer rules
      (handleChange (handleChange (handleChange st n v1) n v2) n v3)).1 =
      some (n, v3) ∧
    ∀ st2, (fireTimer rules
        (handleChange (handleChange (handleChange st n v1) n v2)
          n v3)).2 = .ok st2 →
      st2.pending = none ∧ (fireTimer rules st2).1 = none := by
  have hp : (handleChange (handleChange (handleChange st n v1) n v2)
      n v3).pending = some (n, v3) := rfl
  obtain ⟨h1, h2⟩ := fireTimer_pending_some rules _ (n, v3) hp
  refine ⟨h1, ?_⟩
  intro st2 h
  have hpn := h2 st2 h
  exact ⟨hpn, by rw [fireTimer_pending_none rules st2 hpn]⟩

/-- Engine state after the C4 witness scenario. -/
def engC4 : EngineState :=
  { values := [("age", .vNum 18)], errors := [("age", "")],
    isSubmitting := false, isValidating := false }

/-- Debounced state after the C4 witness scenario. -/
def st2C4 : DebouncedState := { engine := engC4, pending := none }

/-- Witness for C4: changing `age` to 16, 17 and 18 within one window
leaves one pending validation for `(age, 18)`; after it fires nothing is
pending and a second firing executes no validation. -/
theorem spec_C4_witness :
    st2C4.pending = none ∧ (fireTimer [] st2C4).1 = none :=
  (spec_C4 [] ⟨stEmpty, none⟩ "age" (.vNum 16) (.vNum 17) (.vNum 18)).2
    st2C4 (by decide)

theorem handleChanges_errors (st : DebouncedState)
    (calls : List (String × JSValue)) :
    (handleChanges st calls).engine.errors = st.engine.errors := by
  induction calls generalizing st with
  | nil => rfl
  | cons c cs ih => exact (ih (handleChange st c.1 c.2)).trans rfl

theorem handleChanges_append_single (st : DebouncedState)
    (calls : List (String × JSValue)) (f : String) (v : JSValue) :
    handleChanges st (calls ++ [(f, v)]) =
      handleChange (handleChanges st calls) f v := by
  unfold handleChanges
  rw [List.foldl_append]
  rfl

/-- Claim C5: the debounce timer is shared by all fields, not keyed per
field name. After any burst of `handleChange` calls within one debounce
window, only the last call's field/value pair is pending — a call for one
field cancels another field's pending validation — and when the timer
fires only that field is validated: the `errors` entry of every other
field changed in the burst is left exactly as it was. -/
theorem spec_C5 (rules : ValidationRules) (st : DebouncedState)
    (calls : List (String × JSValue)) (f : String) (v : JSValue)
    (g : String) (hg : g ≠ f) :
    (handleChanges st (calls ++ [(f, v)])).pending = some (f, v) ∧
    (fireTimer rules (handleChanges st (calls ++ [(f, v)]))).1 =
      some (f, v) ∧
    ∀ st2, (fireTimer rules (handleChanges st (calls ++ [(f, v)]))).2 =
        .ok st2 →
      lookupKey st2.engine.errors g = lookupKey st.engine.errors g := by
  rw [handleChanges_append_single]
  have hp : (handleChange (handleChanges st calls) f v).pending =
      some (f, v) := rfl
  refine ⟨hp, (fireTimer_pending_some rules _ (f, v) hp).1, ?_⟩
  intro st2 h
  unfold fireTimer at h
  rw [hp] at h
  dsimp only at h
  cases hv : validateField rules
      (handleChange (handleChanges st calls) f v).engine f v with
  | error e => rw [hv] at h; exact absurd h (by simp)
  | ok e2 =>
    rw [hv] at h
    simp only [Except.ok.injEq] at h
    subst h
    cases hfe : validateFieldError rules f v with
    | error e =>
      unfold validateField at hv
      rw [hfe] at hv
      exact absurd hv (by simp)
    | ok err =>
      unfold validateField at hv
      rw [hfe] at hv
      simp only [Except.ok.injEq] at hv
      subst hv
      show lookupKey (setKey (handleChange (handleChanges st calls)
        f v).engine.errors f err) g = lookupKey st.engine.errors g
      rw [lookupKey_setKey_ne _ f g err hg]
      exact congrArg (fun l => lookupKey l g) (handleChanges_errors st calls)

/-- Initial engine state for the C5 witness: a stale error for `email`. -/
def engC5start : EngineState :=
  { values := [], errors := [("email", "Invalid email address")],
    isSubmitting := false, isValidating := false }

/-- Initial debounced state for the C5 witness. -/
def stC5 : DebouncedState := { engine := engC5start, pending := none }

/-- Final engine state for the C5 witness. -/
def engC5end : EngineState :=
  { values := [("email", .vStr "a@b.c"), ("username", .vStr "")],
    errors := [("email", "Invalid email address"),
      ("username", "Username is required")],
    isSubmitting := false, isValidating := false }

/-- Final debounced state for the C5 witness. -/
def st2C5 : DebouncedState := { engine := engC5end, pending := none }

/-- Witness for C5: a burst changing `email` then `username` cancels the
pending email validation; after the timer fires only `username` was
validated and the `email` error entry is untouched. -/
theorem spec_C5_witness :
    lookupKey st2C5.engine.errors "email" =
      lookupKey stC5.engine.errors "email" :=
  (spec_C5 rulesReq stC5 [("email", .vStr "a@b.c")] "username" (.vStr "")
    "email" (by decide)).2.2 st2C5 (by decide)
